import Mathlib

/-!
Shallow embedding of the two utility modules of the qgss-2025 repository:
the zigzag-layout helpers of lab-3/utils/utils.py and the zero-noise
extrapolation helpers of lab-2/utils.py.

External library calls (rustworkx subgraph-isomorphism queries,
rustworkx vf2_mapping, scipy curve_fit, numpy exp) are modelled as
explicit oracle parameters of the embedded functions, so that every
theorem about repository code quantifies over the behaviour of the
external library.  Machine floats are modelled as exact rationals.
Python exceptions are modelled with Option/Except results.
-/

namespace QGSS

/-- Undirected rustworkx PyGraph whose node payloads coincide with node
indices (the only way the repository builds graphs): `numNodes` nodes
numbered `0 .. numNodes - 1` and a list of undirected edges in insertion
order. -/
structure Graph where
  numNodes : Nat
  edges : List (Nat × Nat)
deriving DecidableEq

/-- rustworkx `add_node` (payloads in the repository always equal the fresh
index, so only the node count changes). -/
def Graph.addNode (g : Graph) : Graph :=
  { g with numNodes := g.numNodes + 1 }

/-- rustworkx `add_edge(a, b, None)`: appends an undirected edge. -/
def Graph.addEdge (g : Graph) (a b : Nat) : Graph :=
  { g with edges := g.edges ++ [(a, b)] }

/-- Undirected adjacency in a graph: some stored edge joins `a` and `b`
in either orientation. -/
def Graph.adj (g : Graph) (a b : Nat) : Bool :=
  g.edges.any fun e => (e.1 == a && e.2 == b) || (e.1 == b && e.2 == a)

/-- Embedding of `create_linear_chains` of lab-3/utils/utils.py: two disconnected
linear chains with `num_orbitals` nodes each; nodes `0 .. num_orbitals-1`
then nodes `num_orbitals .. 2*num_orbitals-1`, with consecutive nodes of
each block joined by an edge. -/
def create_linear_chains (num_orbitals : Nat) : Graph :=
  { numNodes := 2 * num_orbitals
    edges :=
      ((List.range (num_orbitals - 1)).map fun n => (n, n + 1)) ++
      ((List.range' num_orbitals (num_orbitals - 1)).map fun n => (n, n + 1)) }

/-- One pass of the `for n in range(num_iters)` body inside
`create_lucj_zigzag_layout`: when `n % 4 == 0`, add a fresh connecting
(alpha-beta) node `2*num_orbitals + num_alpha_beta_qubits` and the two
edges joining it to node `n` and to node `n + num_orbitals`.  The state is
the graph under construction paired with `num_alpha_beta_qubits`. -/
def zigzagStep (num_orbitals : Nat) (st : Graph × Nat) (n : Nat) : Graph × Nat :=
  if n % 4 == 0 then
    let newNode := 2 * num_orbitals + st.2
    (((st.1.addNode).addEdge n newNode).addEdge newNode (n + num_orbitals), st.2 + 1)
  else st

/-- The graph `G_new` (with its `num_alpha_beta_qubits` count) built by one
iteration of the while loop of `create_lucj_zigzag_layout`, starting from a
fresh copy of the two linear chains and running the for loop over
`range(num_iters)`. -/
def zigzagCandidate (num_orbitals iters : Nat) : Graph × Nat :=
  (List.range iters).foldl (zigzagStep num_orbitals) (create_linear_chains num_orbitals, 0)

/-- The while loop of `create_lucj_zigzag_layout`, with the subgraph
isomorphism test of the external graph library supplied as an oracle
`iso` and an explicit fuel bound modelling the number of iterations
executed (the Python loop has no bound; `none` means the fuel ran out,
i.e. the loop is still running).  `iters` is the Python `num_iters`
variable, an `Int` because the source decrements it below zero. -/
def luczLoop (iso : Graph → Graph → Bool) (backend : Graph) (num_orbitals : Nat) :
    Int → Nat → Option (Graph × Nat)
  | _, 0 => none
  | iters, fuel + 1 =>
    let c := zigzagCandidate num_orbitals iters.toNat
    if iso backend c.1 then some c
    else luczLoop iso backend num_orbitals (iters - 1) fuel

/-- Embedding of `create_lucj_zigzag_layout` of lab-3/utils/utils.py: repeatedly build
the zigzag graph with connecting qubits for `num_iters = num_orbitals,
num_orbitals - 1, ...` until the external library reports it
subgraph-isomorphic to the backend coupling graph. -/
def create_lucj_zigzag_layout (iso : Graph → Graph → Bool) (fuel : Nat)
    (num_orbitals : Nat) (backend_coupling_graph : Graph) : Option (Graph × Nat) :=
  luczLoop iso backend_coupling_graph num_orbitals (Int.ofNat num_orbitals) fuel

/-- Semantics of `rustworkx.is_subgraph_isomorphic(h, g)` with default
arguments (no matchers, `induced=True`): `g` is isomorphic to a
node-induced subgraph of `h`, i.e. there is an injection of the nodes of
`g` into the nodes of `h` along which adjacency agrees exactly. -/
def IsSubgraphIso (h g : Graph) : Prop :=
  ∃ f : Fin g.numNodes → Fin h.numNodes, Function.Injective f ∧
    ∀ a b : Fin g.numNodes, g.adj a b = h.adj (f a) (f b)

instance (h g : Graph) : Decidable (IsSubgraphIso h g) := by
  unfold IsSubgraphIso; infer_instance

/-- Boolean form of the external subgraph-isomorphism query, used to
instantiate the `iso` oracle with the documented behaviour of
`rustworkx.is_subgraph_isomorphic`. -/
def is_subgraph_isomorphic (h g : Graph) : Bool :=
  decide (IsSubgraphIso h g)

/-- Abstract view of `backend.properties()`: what the scoring code reads
from it.  `gate_error name edge` is `props.gate_error(name, edge)`, with
`none` modelling the exception the lookup raises when the backend has no
such gate on that directed edge; `readout_error` is
`props.readout_error(qubit)`.  The qubit type `α` is abstract because the
call sites feed either plain ints or placeholder-bearing entries. -/
structure Props (α : Type) where
  gate_error : String → α × α → Option ℚ
  readout_error : α → ℚ

variable {α : Type} [DecidableEq α]

/-- Evaluation of `(layout[edge[0]], layout[edge[1]])`: the physical edge a virtual edge
maps to under a layout; `none` models the IndexError raised when a virtual
node index is out of range of the layout list. -/
def physicalEdge (layout : List α) (edge : Nat × Nat) : Option (α × α) :=
  match layout.get? edge.1, layout.get? edge.2 with
  | some a, some b => some (a, b)
  | _, _ => none

/-- The `try/except` gate-error lookup of
`lightweight_layout_error_scoring`: forward direction first, reverse
direction when the forward lookup raises; `none` when both raise. -/
def edgeGateError (props : Props α) (two_q_gate_name : String) (pe : α × α) : Option ℚ :=
  match props.gate_error two_q_gate_name pe with
  | some ge => some ge
  | none => props.gate_error two_q_gate_name (pe.2, pe.1)

/-- The bad-CZ-edge filter loop of `lightweight_layout_error_scoring`:
walk the virtual edges in order and report `some true` (skip this layout)
at the first physical edge listed in `bad_czgate_edges` in either
orientation, `some false` when no edge is bad, `none` on an out-of-range
index. -/
def badEdgeScan (bad_czgate_edges : List (α × α)) (layout : List α) :
    List (Nat × Nat) → Option Bool
  | [] => some false
  | edge :: rest =>
    match physicalEdge layout edge with
    | none => none
    | some pe =>
      if pe ∈ bad_czgate_edges ∨ (pe.2, pe.1) ∈ bad_czgate_edges then some true
      else badEdgeScan bad_czgate_edges layout rest

/-- The `total_2q_error` accumulation loop: sum of the gate errors of the
physical edges the virtual edges map to, `none` when an index is out of
range or both directions of a lookup raise. -/
def total2qError (props : Props α) (two_q_gate_name : String) (layout : List α) :
    List (Nat × Nat) → Option ℚ
  | [] => some 0
  | edge :: rest =>
    match physicalEdge layout edge with
    | none => none
    | some pe =>
      match edgeGateError props two_q_gate_name pe with
      | none => none
      | some ge =>
        match total2qError props two_q_gate_name layout rest with
        | none => none
        | some s => some (ge + s)

/-- The `total_measurement_error` accumulation loop: sum of the readout
errors of the physical qubits of the layout. -/
def totalMeasurementError (props : Props α) (layout : List α) : ℚ :=
  (layout.map props.readout_error).sum

/-- The main `for layout in physical_layouts` loop of
`lightweight_layout_error_scoring`, building the unsorted `scores` list:
layouts containing a bad readout qubit are skipped, layouts mapping a
virtual edge onto a bad CZ edge are skipped, every other layout is paired
with its error score; `none` models an exception escaping the call. -/
def scoreLayoutsAux (props : Props α) (virtual_edges : List (Nat × Nat))
    (two_q_gate_name : String) (bad_readout_qubits : List α)
    (bad_czgate_edges : List (α × α)) : List (List α) → Option (List (List α × ℚ))
  | [] => some []
  | layout :: rest =>
    if layout.any fun q => decide (q ∈ bad_readout_qubits) then
      scoreLayoutsAux props virtual_edges two_q_gate_name bad_readout_qubits
        bad_czgate_edges rest
    else
      match badEdgeScan bad_czgate_edges layout virtual_edges with
      | none => none
      | some true =>
        scoreLayoutsAux props virtual_edges two_q_gate_name bad_readout_qubits
          bad_czgate_edges rest
      | some false =>
        match total2qError props two_q_gate_name layout virtual_edges with
        | none => none
        | some e2 =>
          match scoreLayoutsAux props virtual_edges two_q_gate_name bad_readout_qubits
              bad_czgate_edges rest with
          | none => none
          | some tail =>
            some ((layout, e2 + totalMeasurementError props layout) :: tail)

/-- Embedding of `lightweight_layout_error_scoring` of lab-3/utils/utils.py: score the
surviving layouts and return them sorted by ascending error score
(`sorted(scores, key=lambda x: x[1])`, a stable ascending sort, modelled
by a stable merge sort on the score component). -/
def lightweight_layout_error_scoring (props : Props α)
    (virtual_edges : List (Nat × Nat)) (physical_layouts : List (List α))
    (two_q_gate_name : String) (bad_readout_qubits : List α)
    (bad_czgate_edges : List (α × α)) : Option (List (List α × ℚ)) :=
  (scoreLayoutsAux props virtual_edges two_q_gate_name bad_readout_qubits
      bad_czgate_edges physical_layouts).map
    fun scores => scores.mergeSort fun x y => decide (x.2 ≤ y.2)

/-- Python slice `l[:-k]` for a nonnegative `k`: the stop index is `-k`;
a negative stop counts from the end of the list, while `-0 == 0` makes the
slice empty.  So for `k = 0` the result is `[]`, and for `k > 0` the last
`k` entries are dropped (all of them when `k` exceeds the length). -/
def pyNegSlice (l : List β) (k : Nat) : List β :=
  if k = 0 then [] else l.take (l.length - k)

/-- The `initial_layout` construction of `get_zigzag_physical_layout`: a
list `[None] * n` whose position `value` is set to `key` for each
`(key, value)` item of one vf2 mapping (keys are backend nodes, values are
zigzag-graph nodes); `none` as overall result models the IndexError
raised when a mapping value is out of range. -/
def buildInitialLayout (n : Nat) (mapping : List (Nat × Nat)) :
    Option (List (Option Nat)) :=
  mapping.foldlM
    (fun acc kv =>
      if kv.2 < acc.length then some (acc.set kv.2 (some kv.1)) else none)
    (List.replicate n (none : Option Nat))

/-- Embedding of `get_zigzag_physical_layout` of lab-3/utils/utils.py.  The external
calls are oracle parameters: `iso` for `rustworkx.is_subgraph_isomorphic`
inside `create_lucj_zigzag_layout` (with `fuel` bounding its while loop),
`vf2` for `rustworkx.vf2_mapping` (each mapping given as its list of
key-value items in iteration order), `backendGraph` for the undirected
coupling graph `_make_backend_cmap_pygraph` derives from the backend,
`props` for `backend.properties()` and `two_q_gate_name` for the gate
name popped from the basis-gate intersection.  `none` models a call that
raises or never returns. -/
def get_zigzag_physical_layout (iso : Graph → Graph → Bool)
    (vf2 : Graph → Graph → List (List (Nat × Nat))) (fuel : Nat)
    (num_orbitals : Nat) (backendGraph : Graph) (props : Props (Option Nat))
    (two_q_gate_name : String) (score_layouts : Bool) (num_ancillas : Nat)
    (bad_readout_qubits : List (Option Nat))
    (bad_czgate_edges : List (Option Nat × Option Nat)) :
    Option (List (Option Nat) × Nat) :=
  match create_lucj_zigzag_layout iso fuel (num_orbitals + num_ancillas) backendGraph with
  | none => none
  | some gk =>
    match (vf2 backendGraph gk.1).mapM
        (buildInitialLayout (2 * (num_orbitals + num_ancillas) + gk.2)) with
    | none => none
    | some layouts =>
      if score_layouts then
        match lightweight_layout_error_scoring props gk.1.edges layouts
            two_q_gate_name bad_readout_qubits bad_czgate_edges with
        | none => none
        | some scores =>
          match scores.head? with
          | none => none
          | some first => some (pyNegSlice first.1 gk.2, gk.2)
      else
        match layouts.head? with
        | none => none
        | some first => some (pyNegSlice first gk.2, gk.2)

/-- Embedding of `linear_model` of lab-2/utils.py. -/
def linear_model (x a b : ℚ) : ℚ := a * x + b

/-- Embedding of `quadratic_model` of lab-2/utils.py. -/
def quadratic_model (x a b c : ℚ) : ℚ := a * x ^ 2 + b * x + c

/-- Embedding of `exponential_model` of lab-2/utils.py, with `np.exp` supplied as an
oracle `rexp` (rationals stand in for machine floats). -/
def exponential_model (rexp : ℚ → ℚ) (x a b c : ℚ) : ℚ := a * rexp (-b * x) + c

/-- Identifies which of the three model functions a `zne_method` branch
fitted and returned as `fit_fn`. -/
inductive FitTag where
  | linearTag
  | quadraticTag
  | exponentialTag
deriving DecidableEq

/-- The exception classes `zne_method` can raise: the explicit
`ValueError` of its else branch, the `TypeError` of a parameter-arity
mismatch when splatting `popt`, and any exception escaping `curve_fit`. -/
inductive PyError where
  | valueError
  | typeError
  | fitError
deriving DecidableEq

/-- The method string each branch of `zne_method` dispatches on. -/
def FitTag.methodName : FitTag → String
  | .linearTag => "linear"
  | .quadraticTag => "quadratic"
  | .exponentialTag => "exponential"

/-- Evaluation of the model function identified by a tag on a parameter
list, as the Python splat `model(x, *popt)` does; `none` models the
TypeError of an arity mismatch. -/
def FitTag.eval (rexp : ℚ → ℚ) : FitTag → ℚ → List ℚ → Option ℚ
  | .linearTag, x, [a, b] => some (linear_model x a b)
  | .quadraticTag, x, [a, b, c] => some (quadratic_model x a b c)
  | .exponentialTag, x, [a, b, c] => some (exponential_model rexp x a b c)
  | _, _, _ => none

/-- Embedding of `zne_method` of lab-2/utils.py.  `scipy.optimize.curve_fit` is the
oracle `fit`, keyed by the model function the source passes to it (the
`p0` and `maxfev` arguments of the exponential call are fixed in the
source, so they are part of the oracle behaviour at the exponential key);
`some popt` is the fitted parameter array, `none` a fit that raises.
`np.exp` is the oracle `rexp`.  On success the source returns
`(zero_val, ydata, popt, fit_fn)`. -/
def zne_method (fit : FitTag → List ℚ → List ℚ → Option (List ℚ))
    (rexp : ℚ → ℚ) (method : String) (xdata ydata : List ℚ) :
    Except PyError (ℚ × List ℚ × List ℚ × FitTag) :=
  if method = "linear" then
    match fit .linearTag xdata ydata with
    | none => .error .fitError
    | some popt =>
      match popt with
      | [a, b] => .ok (linear_model 0 a b, ydata, popt, .linearTag)
      | _ => .error .typeError
  else if method = "quadratic" then
    match fit .quadraticTag xdata ydata with
    | none => .error .fitError
    | some popt =>
      match popt with
      | [a, b, c] => .ok (quadratic_model 0 a b c, ydata, popt, .quadraticTag)
      | _ => .error .typeError
  else if method = "exponential" then
    match fit .exponentialTag xdata ydata with
    | none => .error .fitError
    | some popt =>
      match popt with
      | [a, b, c] => .ok (exponential_model rexp 0 a b c, ydata, popt, .exponentialTag)
      | _ => .error .typeError
  else .error .valueError

theorem clc_adj_first {no n : Nat} (h : n + 1 < no) :
    (create_linear_chains no).adj n (n + 1) = true := by
  have hmem : ((n, n + 1) : Nat × Nat) ∈ (create_linear_chains no).edges := by
    simp only [create_linear_chains, List.mem_append, List.mem_map, List.mem_range]
    exact Or.inl ⟨n, by omega, rfl⟩
  simp only [Graph.adj, List.any_eq_true]
  exact ⟨(n, n + 1), hmem, by simp⟩

theorem clc_adj_second {no n : Nat} (h1 : no ≤ n) (h2 : n + 1 < 2 * no) :
    (create_linear_chains no).adj n (n + 1) = true := by
  have hmem : ((n, n + 1) : Nat × Nat) ∈ (create_linear_chains no).edges := by
    simp only [create_linear_chains, List.mem_append, List.mem_map,
      List.mem_range'_1]
    exact Or.inr ⟨n, ⟨h1, by omega⟩, rfl⟩
  simp only [Graph.adj, List.any_eq_true]
  exact ⟨(n, n + 1), hmem, by simp⟩

theorem clc_adj_elim {no a b : Nat} (h : (create_linear_chains no).adj a b = true) :
    (a + 1 = b ∨ b + 1 = a) ∧
      ((a < no ∧ b < no) ∨ (no ≤ a ∧ a < 2 * no ∧ no ≤ b ∧ b < 2 * no)) := by
  simp only [Graph.adj, List.any_eq_true, create_linear_chains, List.mem_append,
    List.mem_map, List.mem_range, List.mem_range'_1, Bool.or_eq_true,
    Bool.and_eq_true, beq_iff_eq] at h
  obtain ⟨e, hmem, hpred⟩ := h
  rcases hmem with ⟨n, hn, rfl⟩ | ⟨n, hn, rfl⟩ <;>
    rcases hpred with ⟨h1, h2⟩ | ⟨h1, h2⟩ <;>
    subst h1 <;> subst h2 <;>
    constructor <;> omega

/-- C6: for every `num_orbitals ≥ 1`, `create_linear_chains` returns two
disconnected linear chains: `2 * num_orbitals` nodes,
`2 * (num_orbitals - 1)` edges, consecutive nodes of `0 .. num_orbitals-1`
adjacent, consecutive nodes of `num_orbitals .. 2*num_orbitals-1`
adjacent, and every edge joins consecutive nodes lying within a single
chain (so no edge joins the two chains). -/
theorem create_linear_chains_is_two_chains (no : Nat) (h : 1 ≤ no) :
    (create_linear_chains no).numNodes = 2 * no ∧
    (create_linear_chains no).edges.length = 2 * (no - 1) ∧
    (∀ n, n + 1 < no → (create_linear_chains no).adj n (n + 1) = true) ∧
    (∀ n, no ≤ n → n + 1 < 2 * no → (create_linear_chains no).adj n (n + 1) = true) ∧
    (∀ a b, (create_linear_chains no).adj a b = true →
      (a + 1 = b ∨ b + 1 = a) ∧
        ((a < no ∧ b < no) ∨ (no ≤ a ∧ a < 2 * no ∧ no ≤ b ∧ b < 2 * no))) := by
  refine ⟨rfl, ?_, ?_, ?_, ?_⟩
  · simp only [create_linear_chains, List.length_append, List.length_map,
      List.length_range, List.length_range']
    omega
  · exact fun n hn => clc_adj_first hn
  · exact fun n hn1 hn2 => clc_adj_second hn1 hn2
  · exact fun a b hab => clc_adj_elim hab

/-- Witness for C6 at `num_orbitals = 3`. -/
theorem create_linear_chains_is_two_chains_w :
    1 ≤ 3 ∧
    ((create_linear_chains 3).numNodes = 2 * 3 ∧
    (create_linear_chains 3).edges.length = 2 * (3 - 1) ∧
    (∀ n, n + 1 < 3 → (create_linear_chains 3).adj n (n + 1) = true) ∧
    (∀ n, 3 ≤ n → n + 1 < 2 * 3 → (create_linear_chains 3).adj n (n + 1) = true) ∧
    (∀ a b, (create_linear_chains 3).adj a b = true →
      (a + 1 = b ∨ b + 1 = a) ∧
        ((a < 3 ∧ b < 3) ∨ (3 ≤ a ∧ a < 2 * 3 ∧ 3 ≤ b ∧ b < 2 * 3)))) :=
  ⟨by decide, create_linear_chains_is_two_chains 3 (by decide)⟩

theorem luczLoop_iso_of_some {iso : Graph → Graph → Bool} {backend : Graph}
    {no : Nat} :
    ∀ fuel iters g k, luczLoop iso backend no iters fuel = some (g, k) →
      iso backend g = true := by
  intro fuel
  induction fuel with
  | zero => intro iters g k h; simp [luczLoop] at h
  | succ f ih =>
    intro iters g k h
    rw [luczLoop] at h
    by_cases hc : iso backend (zigzagCandidate no iters.toNat).1 = true
    · simp only [hc, if_true] at h
      obtain ⟨h1, h2⟩ := Prod.mk.injEq .. ▸ Option.some.injEq .. ▸ h
      exact h1 ▸ hc
    · simp only [hc, if_false] at h
      exact ih (iters - 1) g k h

/-- C3: whenever `create_lucj_zigzag_layout` returns, the zigzag graph it
returns satisfies the subgraph-isomorphism test against the backend
coupling graph exactly as judged by the external oracle `iso` (the
embedding of `rustworkx.is_subgraph_isomorphic`): the theorem holds for
every oracle, reflecting that the repository delegates the check instead
of implementing it. -/
theorem create_lucj_zigzag_layout_returns_isomorphic
    (iso : Graph → Graph → Bool) (fuel num_orbitals : Nat) (backend : Graph)
    (g : Graph) (k : Nat)
    (h : create_lucj_zigzag_layout iso fuel num_orbitals backend = some (g, k)) :
    iso backend g = true :=
  luczLoop_iso_of_some fuel (Int.ofNat num_orbitals) g k h

/-- Witness for C3: a concrete run that returns at the first iteration. -/
theorem create_lucj_zigzag_layout_returns_isomorphic_w :
    create_lucj_zigzag_layout (fun _ _ => true) 1 1 ⟨3, [(0, 2), (2, 1)]⟩ =
      some (⟨3, [(0, 1 + 1), (1 + 1, 0 + 1)]⟩, 1) ∧
    (fun (_ _ : Graph) => true) ⟨3, [(0, 2), (2, 1)]⟩ ⟨3, [(0, 1 + 1), (1 + 1, 0 + 1)]⟩ = true :=
  ⟨rfl, create_lucj_zigzag_layout_returns_isomorphic (fun _ _ => true) 1 1
    ⟨3, [(0, 2), (2, 1)]⟩ ⟨3, [(0, 1 + 1), (1 + 1, 0 + 1)]⟩ 1 rfl⟩

/-- Invariant of the connector-adding fold: the node count tracks the
connector count and every added edge touches a connector node. -/
def ZigzagInv (no : Nat) (st : Graph × Nat) : Prop :=
  st.1.numNodes = 2 * no + st.2 ∧
  ∃ extra, st.1.edges = (create_linear_chains no).edges ++ extra ∧
    ∀ e ∈ extra, 2 * no ≤ e.1 ∨ 2 * no ≤ e.2

theorem zigzagStep_inv {no : Nat} {st : Graph × Nat} (h : ZigzagInv no st)
    (n : Nat) : ZigzagInv no (zigzagStep no st n) := by
  obtain ⟨h1, extra, h2, h3⟩ := h
  unfold zigzagStep
  by_cases hn : n % 4 == 0
  · simp only [hn, if_true]
    refine ⟨by simp [Graph.addNode, Graph.addEdge, h1]; omega,
      extra ++ [(n, 2 * no + st.2), (2 * no + st.2, n + no)], ?_, ?_⟩
    · simp [Graph.addNode, Graph.addEdge, h2]
    · intro e he
      rcases List.mem_append.mp he with he | he
      · exact h3 e he
      · rcases List.mem_cons.mp he with rfl | he
        · right; simp
        · rcases List.mem_cons.mp he with rfl | he
          · left; simp
          · cases he
  · simp only [hn, if_false]
    exact ⟨h1, extra, h2, h3⟩

theorem zigzagFold_inv {no : Nat} :
    ∀ (l : List Nat) (st : Graph × Nat), ZigzagInv no st →
      ZigzagInv no (l.foldl (zigzagStep no) st)
  | [], _, h => h
  | n :: rest, st, h => zigzagFold_inv rest _ (zigzagStep_inv h n)

theorem zigzagCandidate_inv (no iters : Nat) :
    ZigzagInv no (zigzagCandidate no iters) :=
  zigzagFold_inv _ _ ⟨by simp [create_linear_chains], [], by simp, by simp⟩

/-- Adjacency among the chain nodes is unchanged by adding connectors. -/
theorem candidate_adj_restrict {no : Nat} {g : Graph} {extra : List (Nat × Nat)}
    (h2 : g.edges = (create_linear_chains no).edges ++ extra)
    (h3 : ∀ e ∈ extra, 2 * no ≤ e.1 ∨ 2 * no ≤ e.2)
    {a b : Nat} (ha : a < 2 * no) (hb : b < 2 * no) :
    g.adj a b = (create_linear_chains no).adj a b := by
  simp only [Graph.adj, h2, List.any_append]
  have : extra.any (fun e => (e.1 == a && e.2 == b) || (e.1 == b && e.2 == a)) = false := by
    rw [List.any_eq_false]
    intro e he
    have hor := h3 e he
    simp only [Bool.or_eq_true, Bool.and_eq_true, beq_iff_eq]
    omega
  rw [this, Bool.or_false]

/-- If a zigzag candidate embeds into the backend as an induced subgraph,
so do the bare two chains, by restricting the embedding. -/
theorem isSubgraphIso_bare_of_candidate {backend : Graph} {no iters : Nat}
    (h : IsSubgraphIso backend (zigzagCandidate no iters).1) :
    IsSubgraphIso backend (create_linear_chains no) := by
  obtain ⟨hn, extra, h2, h3⟩ := zigzagCandidate_inv no iters
  obtain ⟨f, hinj, hadj⟩ := h
  have hle : (create_linear_chains no).numNodes ≤ (zigzagCandidate no iters).1.numNodes := by
    simp [create_linear_chains, hn]
  refine ⟨fun i => f (Fin.castLE hle i), fun i j hij => ?_, fun a b => ?_⟩
  · have := hinj hij
    exact Fin.castLE_injective hle this
  · have ha : (a : Nat) < 2 * no := by
      have := a.isLt
      simpa [create_linear_chains] using this
    have hb : (b : Nat) < 2 * no := by
      have := b.isLt
      simpa [create_linear_chains] using this
    have hrestrict := candidate_adj_restrict h2 h3 ha hb
    have hmap := hadj (Fin.castLE hle a) (Fin.castLE hle b)
    exact hrestrict ▸ hmap

theorem zigzagCandidate_zero (no : Nat) :
    zigzagCandidate no 0 = (create_linear_chains no, 0) := rfl

theorem luczLoop_none_of_not_bare {backend : Graph} {no : Nat}
    (h : ¬ IsSubgraphIso backend (create_linear_chains no)) :
    ∀ fuel iters, luczLoop is_subgraph_isomorphic backend no iters fuel = none := by
  intro fuel
  induction fuel with
  | zero => intro iters; rfl
  | succ f ih =>
    intro iters
    rw [luczLoop]
    have hc : is_subgraph_isomorphic backend (zigzagCandidate no iters.toNat).1 = false := by
      unfold is_subgraph_isomorphic
      rw [decide_eq_false_iff_not]
      exact fun hx => h (isSubgraphIso_bare_of_candidate hx)
    simp only [hc, if_false]
    exact ih (iters - 1)

theorem luczLoop_some_of_bare {backend : Graph} {no : Nat}
    (h : IsSubgraphIso backend (create_linear_chains no)) :
    ∀ fuel iters, iters.toNat < fuel →
      ∃ r, luczLoop is_subgraph_isomorphic backend no iters fuel = some r := by
  intro fuel
  induction fuel with
  | zero => intro iters hlt; omega
  | succ f ih =>
    intro iters hlt
    by_cases hc : is_subgraph_isomorphic backend (zigzagCandidate no iters.toNat).1 = true
    · exact ⟨zigzagCandidate no iters.toNat, by rw [luczLoop]; simp only [hc, if_true]⟩
    · by_cases hz : iters.toNat = 0
      · exfalso
        apply hc
        rw [hz, zigzagCandidate_zero]
        exact decide_eq_true h
      · rw [luczLoop]
        simp only [hc, if_false]
        apply ih
        omega

/-- C10: with the subgraph-isomorphism oracle instantiated to the
documented semantics of `rustworkx.is_subgraph_isomorphic`, the while
loop of `create_lucj_zigzag_layout` terminates (within
`num_orbitals + 1` iterations) whenever the bare two-chain graph is
subgraph-isomorphic to the backend coupling graph, and never terminates
(returns `none` for every fuel bound) when even the bare graph is not:
once `num_iters` drops below 1 every iteration retests the unchanged
bare graph. -/
theorem zigzag_search_termination (num_orbitals : Nat) (backend : Graph) :
    (IsSubgraphIso backend (create_linear_chains num_orbitals) →
      ∃ r, create_lucj_zigzag_layout is_subgraph_isomorphic (num_orbitals + 1)
        num_orbitals backend = some r) ∧
    (¬ IsSubgraphIso backend (create_linear_chains num_orbitals) →
      ∀ fuel, create_lucj_zigzag_layout is_subgraph_isomorphic fuel
        num_orbitals backend = none) := by
  constructor
  · intro h
    exact luczLoop_some_of_bare h (num_orbitals + 1) (Int.ofNat num_orbitals)
      (by simp)
  · intro h fuel
    exact luczLoop_none_of_not_bare h fuel (Int.ofNat num_orbitals)

/-- Witness for C10: on a two-node edgeless backend the bare chains for
one orbital embed, and the search indeed returns. -/
theorem zigzag_search_termination_w :
    IsSubgraphIso ⟨2, []⟩ (create_linear_chains 1) ∧
    ∃ r, create_lucj_zigzag_layout is_subgraph_isomorphic 2 1 ⟨2, []⟩ = some r :=
  ⟨by decide, (zigzag_search_termination 1 ⟨2, []⟩).1 (by decide)⟩

/-- Everything the scoring loop guarantees about a pair it emits: the
layout is one of the inputs, it passed both filters, and its score is the
two-qubit error sum plus the measurement error sum. -/
theorem scoreLayoutsAux_mem {props : Props α} {ve : List (Nat × Nat)}
    {g : String} {brq : List α} {bce : List (α × α)} :
    ∀ (layouts : List (List α)) (scores : List (List α × ℚ)),
      scoreLayoutsAux props ve g brq bce layouts = some scores →
      ∀ l s, (l, s) ∈ scores →
        l ∈ layouts ∧ (l.any fun q => decide (q ∈ brq)) = false ∧
        badEdgeScan bce l ve = some false ∧
        ∃ e2, total2qError props g l ve = some e2 ∧
          s = e2 + totalMeasurementError props l := by
  intro layouts
  induction layouts with
  | nil =>
    intro scores h l s hm
    rw [scoreLayoutsAux] at h
    injection h with h
    subst h
    cases hm
  | cons layout rest ih =>
    intro scores h l s hm
    rw [scoreLayoutsAux] at h
    by_cases hf : (layout.any fun q => decide (q ∈ brq)) = true
    · rw [if_pos hf] at h
      obtain ⟨h1, h2, h3, h4⟩ := ih scores h l s hm
      exact ⟨List.mem_cons_of_mem _ h1, h2, h3, h4⟩
    · rw [if_neg hf] at h
      cases hbe : badEdgeScan bce layout ve with
      | none => rw [hbe] at h; cases h
      | some bb =>
        rw [hbe] at h
        cases bb with
        | true =>
          obtain ⟨h1, h2, h3, h4⟩ := ih scores h l s hm
          exact ⟨List.mem_cons_of_mem _ h1, h2, h3, h4⟩
        | false =>
          cases he2 : total2qError props g layout ve with
          | none => rw [he2] at h; cases h
          | some e2 =>
            rw [he2] at h
            cases ht : scoreLayoutsAux props ve g brq bce rest with
            | none => rw [ht] at h; cases h
            | some tail =>
              rw [ht] at h
              injection h with h
              subst h
              rcases List.mem_cons.mp hm with heq | hm2
              · have hl : l = layout := congrArg Prod.fst heq
                have hs : s = e2 + totalMeasurementError props layout :=
                  congrArg Prod.snd heq
                subst hl
                exact ⟨List.mem_cons_self _ _, Bool.not_eq_true _ ▸ hf, hbe,
                  e2, he2, hs⟩
              · obtain ⟨h1, h2, h3, h4⟩ := ih tail ht l s hm2
                exact ⟨List.mem_cons_of_mem _ h1, h2, h3, h4⟩

/-- The sorted output of `lightweight_layout_error_scoring` is the stable
merge sort of the raw scores list. -/
theorem lles_eq_mergeSort {props : Props α} {ve : List (Nat × Nat)}
    {layouts : List (List α)} {g : String} {brq : List α} {bce : List (α × α)}
    {scores : List (List α × ℚ)}
    (h : lightweight_layout_error_scoring props ve layouts g brq bce = some scores) :
    ∃ raw, scoreLayoutsAux props ve g brq bce layouts = some raw ∧
      scores = raw.mergeSort fun x y => decide (x.2 ≤ y.2) := by
  unfold lightweight_layout_error_scoring at h
  cases hr : scoreLayoutsAux props ve g brq bce layouts with
  | none => rw [hr] at h; cases h
  | some raw =>
    rw [hr] at h
    injection h with h
    exact ⟨raw, rfl, h.symm⟩

/-- Membership in the sorted output coincides with membership in the raw
scores list. -/
theorem lles_mem {props : Props α} {ve : List (Nat × Nat)}
    {layouts : List (List α)} {g : String} {brq : List α} {bce : List (α × α)}
    {scores : List (List α × ℚ)}
    (h : lightweight_layout_error_scoring props ve layouts g brq bce = some scores)
    {l : List α} {s : ℚ} (hm : (l, s) ∈ scores) :
    l ∈ layouts ∧ (l.any fun q => decide (q ∈ brq)) = false ∧
    badEdgeScan bce l ve = some false ∧
    ∃ e2, total2qError props g l ve = some e2 ∧
      s = e2 + totalMeasurementError props l := by
  obtain ⟨raw, hraw, rfl⟩ := lles_eq_mergeSort h
  exact scoreLayoutsAux_mem _ raw hraw l s
    ((raw.mergeSort_perm _).mem_iff.mp hm)

/-- The two-qubit accumulation loop computes the sum of the per-edge
lookups. -/
theorem total2qError_eq_mapM (props : Props α) (g : String) (l : List α) :
    ∀ ve, total2qError props g l ve =
      (ve.mapM fun e => (physicalEdge l e).bind (edgeGateError props g)).map
        List.sum := by
  intro ve
  induction ve with
  | nil => rfl
  | cons e rest ih =>
    rw [total2qError, List.mapM_cons]
    cases hpe : physicalEdge l e with
    | none => simp [hpe]
    | some pe =>
      cases hge : edgeGateError props g pe with
      | none => simp [hpe, hge]
      | some ge =>
        rw [ih]
        cases hrest : rest.mapM fun e => (physicalEdge l e).bind (edgeGateError props g) with
        | none => simp [hpe, hge, hrest]
        | some ges => simp [hpe, hge, hrest]

/-- C1: the error score paired with every layout that survives filtering
is the sum over the virtual edges of the backend two-qubit gate error on
the corresponding physical edge (forward lookup, reverse on failure) plus
the sum of the backend readout error over the physical qubits of the
layout. -/
theorem scoring_score_is_error_sum (props : Props α) (ve : List (Nat × Nat))
    (layouts : List (List α)) (g : String) (brq : List α) (bce : List (α × α))
    (scores : List (List α × ℚ)) (l : List α) (s : ℚ)
    (h : lightweight_layout_error_scoring props ve layouts g brq bce = some scores)
    (hm : (l, s) ∈ scores) :
    ∃ ges : List ℚ,
      (ve.mapM fun e => (physicalEdge l e).bind (edgeGateError props g)) = some ges ∧
      s = ges.sum + (l.map props.readout_error).sum := by
  obtain ⟨-, -, -, e2, he2, hs⟩ := lles_mem h hm
  rw [total2qError_eq_mapM] at he2
  cases hmm : ve.mapM fun e => (physicalEdge l e).bind (edgeGateError props g) with
  | none => rw [hmm] at he2; cases he2
  | some ges =>
    rw [hmm] at he2
    injection he2 with he2
    exact ⟨ges, rfl, by rw [hs, he2]; rfl⟩

/-- Witness for C1 on a one-layout instance with zero error rates. -/
theorem scoring_score_is_error_sum_w :
    lightweight_layout_error_scoring
        (⟨fun _ _ => some 0, fun _ => 0⟩ : Props Nat) [(0, 1)] [[0, 1]] "cz" [] [] =
      some [([0, 1], 0)] ∧
    (([0, 1], (0 : ℚ)) ∈ [(([0, 1] : List Nat), (0 : ℚ))]) ∧
    ∃ ges : List ℚ,
      ([(0, 1)].mapM fun e =>
        (physicalEdge [0, 1] e).bind
          (edgeGateError (⟨fun _ _ => some 0, fun _ => 0⟩ : Props Nat) "cz")) = some ges ∧
      (0 : ℚ) = ges.sum + (([0, 1] : List Nat).map
        (Props.readout_error (⟨fun _ _ => some 0, fun _ => 0⟩ : Props Nat))).sum := by
  have h : lightweight_layout_error_scoring
      (⟨fun _ _ => some 0, fun _ => 0⟩ : Props Nat) [(0, 1)] [[0, 1]] "cz" [] [] =
      some [([0, 1], 0)] := by
    unfold lightweight_layout_error_scoring
    norm_num [scoreLayoutsAux, badEdgeScan, physicalEdge, total2qError,
      edgeGateError, totalMeasurementError]
  exact ⟨h, by simp,
    scoring_score_is_error_sum _ [(0, 1)] [[0, 1]] "cz" [] [] _ [0, 1] 0 h (by simp)⟩

/-- C2: the list returned by `lightweight_layout_error_scoring` is sorted
in ascending order of error score, so the first returned layout scores no
higher than any other returned layout. -/
theorem scoring_sorted_ascending (props : Props α) (ve : List (Nat × Nat))
    (layouts : List (List α)) (g : String) (brq : List α) (bce : List (α × α))
    (scores : List (List α × ℚ))
    (h : lightweight_layout_error_scoring props ve layouts g brq bce = some scores) :
    scores.Pairwise (fun x y => x.2 ≤ y.2) ∧
    ∀ first rest, scores = first :: rest → ∀ p ∈ rest, first.2 ≤ p.2 := by
  obtain ⟨raw, -, rfl⟩ := lles_eq_mergeSort h
  have hp : (raw.mergeSort fun x y => decide (x.2 ≤ y.2)).Pairwise
      (fun x y : List α × ℚ => x.2 ≤ y.2) := by
    have := @List.sorted_mergeSort (List α × ℚ)
      (fun x y => decide (x.2 ≤ y.2))
      (fun a b c h1 h2 => by
        simp only [decide_eq_true_eq] at h1 h2 ⊢
        exact le_trans h1 h2)
      (fun a b => by
        simp only [Bool.or_eq_true, decide_eq_true_eq]
        exact le_total a.2 b.2)
      raw
    exact this.imp fun hab => by simpa using hab
  refine ⟨hp, fun first rest heq p hp2 => ?_⟩
  rw [heq, List.pairwise_cons] at hp
  exact hp.1 p hp2

/-- Witness for C2 on a one-layout instance. -/
theorem scoring_sorted_ascending_w :
    lightweight_layout_error_scoring
        (⟨fun _ _ => some 0, fun _ => 0⟩ : Props Nat) [(0, 1)] [[0, 1]] "cz" [] [] =
      some [([0, 1], 0)] ∧
    ([(([0, 1] : List Nat), (0 : ℚ))].Pairwise (fun x y => x.2 ≤ y.2) ∧
    ∀ first rest, [(([0, 1] : List Nat), (0 : ℚ))] = first :: rest →
      ∀ p ∈ rest, first.2 ≤ p.2) := by
  have h : lightweight_layout_error_scoring
      (⟨fun _ _ => some 0, fun _ => 0⟩ : Props Nat) [(0, 1)] [[0, 1]] "cz" [] [] =
      some [([0, 1], 0)] := by
    unfold lightweight_layout_error_scoring
    norm_num [scoreLayoutsAux, badEdgeScan, physicalEdge, total2qError,
      edgeGateError, totalMeasurementError]
  exact ⟨h, scoring_sorted_ascending _ [(0, 1)] [[0, 1]] "cz" [] [] _ h⟩

/-- A bad-edge scan that reports `some false` certifies that none of the
virtual edges of the scanned prefix lands on a listed coupling in either
orientation. -/
theorem badEdgeScan_false_elim {bce : List (α × α)} {l : List α} :
    ∀ ve, badEdgeScan bce l ve = some false →
      ∀ e ∈ ve, ∀ pe, physicalEdge l e = some pe →
        pe ∉ bce ∧ (pe.2, pe.1) ∉ bce := by
  intro ve
  induction ve with
  | nil => intro _ e he; cases he
  | cons e0 rest ih =>
    intro h e he pe hpe
    rw [badEdgeScan] at h
    cases hp0 : physicalEdge l e0 with
    | none => rw [hp0] at h; cases h
    | some pe0 =>
      simp only [hp0] at h
      by_cases hb : pe0 ∈ bce ∨ (pe0.2, pe0.1) ∈ bce
      · rw [if_pos hb] at h; cases h
      · rw [if_neg hb] at h
        rcases List.mem_cons.mp he with rfl | he2
        · rw [hp0] at hpe
          injection hpe with hpe
          subst hpe
          exact ⟨fun hx => hb (Or.inl hx), fun hx => hb (Or.inr hx)⟩
        · exact ih h e he2 pe hpe

/-- C9: every layout in the output of `lightweight_layout_error_scoring`
contains no qubit listed in `bad_readout_qubits` and maps no virtual edge
onto a coupling listed in `bad_czgate_edges` in either orientation. -/
theorem scoring_excludes_bad_hardware (props : Props α) (ve : List (Nat × Nat))
    (layouts : List (List α)) (g : String) (brq : List α) (bce : List (α × α))
    (scores : List (List α × ℚ)) (l : List α) (s : ℚ)
    (h : lightweight_layout_error_scoring props ve layouts g brq bce = some scores)
    (hm : (l, s) ∈ scores) :
    (∀ q ∈ l, q ∉ brq) ∧
    (∀ e ∈ ve, ∀ pe, physicalEdge l e = some pe →
      pe ∉ bce ∧ (pe.2, pe.1) ∉ bce) := by
  obtain ⟨-, hany, hscan, -⟩ := lles_mem h hm
  constructor
  · intro q hq
    have := List.any_eq_false.mp hany q hq
    simpa using this
  · exact badEdgeScan_false_elim ve hscan

/-- Witness for C9 on a one-layout instance with nonempty bad lists that
the surviving layout avoids. -/
theorem scoring_excludes_bad_hardware_w :
    lightweight_layout_error_scoring
        (⟨fun _ _ => some 0, fun _ => 0⟩ : Props Nat) [(0, 1)] [[0, 1]] "cz"
        [7] [(5, 6)] = some [([0, 1], 0)] ∧
    (([0, 1], (0 : ℚ)) ∈ [(([0, 1] : List Nat), (0 : ℚ))]) ∧
    ((∀ q ∈ ([0, 1] : List Nat), q ∉ ([7] : List Nat)) ∧
    (∀ e ∈ ([(0, 1)] : List (Nat × Nat)), ∀ pe,
      physicalEdge ([0, 1] : List Nat) e = some pe →
        pe ∉ ([(5, 6)] : List (Nat × Nat)) ∧
        (pe.2, pe.1) ∉ ([(5, 6)] : List (Nat × Nat)))) := by
  have h : lightweight_layout_error_scoring
      (⟨fun _ _ => some 0, fun _ => 0⟩ : Props Nat) [(0, 1)] [[0, 1]] "cz"
      [7] [(5, 6)] = some [([0, 1], 0)] := by
    unfold lightweight_layout_error_scoring
    norm_num [scoreLayoutsAux, badEdgeScan, physicalEdge, total2qError,
      edgeGateError, totalMeasurementError]
  exact ⟨h, by simp,
    scoring_excludes_bad_hardware _ [(0, 1)] [[0, 1]] "cz" [7] [(5, 6)] _
      [0, 1] 0 h (by simp)⟩

/-- Everything a successful `zne_method` call guarantees: the returned
`ydata` is the argument, the returned fit function is the dispatched
model, the parameters are those produced by the curve fit on
`(xdata, ydata)`, and the zero-noise value is that model at noise scale
0 with those parameters. -/
theorem zne_method_ok_inv (fit : FitTag → List ℚ → List ℚ → Option (List ℚ))
    (rexp : ℚ → ℚ) (method : String) (xdata ydata : List ℚ)
    (zv : ℚ) (yd popt : List ℚ) (tag : FitTag)
    (h : zne_method fit rexp method xdata ydata = .ok (zv, yd, popt, tag)) :
    yd = ydata ∧ tag.methodName = method ∧ fit tag xdata ydata = some popt ∧
      tag.eval rexp 0 popt = some zv := by
  by_cases e1 : method = "linear"
  · subst e1
    rw [zne_method, if_pos rfl] at h
    cases hf : fit .linearTag xdata ydata with
    | none => rw [hf] at h; cases h
    | some p =>
      simp only [hf] at h
      rcases p with _ | ⟨a, _ | ⟨b, _ | ⟨c, tl⟩⟩⟩
      · cases h
      · cases h
      · simp only [Except.ok.injEq, Prod.mk.injEq] at h
        obtain ⟨h1, h2, h3, h4⟩ := h
        subst h1; subst h2; subst h3; subst h4
        exact ⟨rfl, rfl, hf, rfl⟩
      · cases h
  · by_cases e2 : method = "quadratic"
    · subst e2
      rw [zne_method, if_neg (by decide), if_pos rfl] at h
      cases hf : fit .quadraticTag xdata ydata with
      | none => rw [hf] at h; cases h
      | some p =>
        simp only [hf] at h
        rcases p with _ | ⟨a, _ | ⟨b, _ | ⟨c, _ | ⟨d, tl⟩⟩⟩⟩
        · cases h
        · cases h
        · cases h
        · simp only [Except.ok.injEq, Prod.mk.injEq] at h
          obtain ⟨h1, h2, h3, h4⟩ := h
          subst h1; subst h2; subst h3; subst h4
          exact ⟨rfl, rfl, hf, rfl⟩
        · cases h
    · by_cases e3 : method = "exponential"
      · subst e3
        rw [zne_method, if_neg (by decide), if_neg (by decide), if_pos rfl] at h
        cases hf : fit .exponentialTag xdata ydata with
        | none => rw [hf] at h; cases h
        | some p =>
          simp only [hf] at h
          rcases p with _ | ⟨a, _ | ⟨b, _ | ⟨c, _ | ⟨d, tl⟩⟩⟩⟩
          · cases h
          · cases h
          · cases h
          · simp only [Except.ok.injEq, Prod.mk.injEq] at h
            obtain ⟨h1, h2, h3, h4⟩ := h
            subst h1; subst h2; subst h3; subst h4
            exact ⟨rfl, rfl, hf, rfl⟩
          · cases h
      · rw [zne_method, if_neg e1, if_neg e2, if_neg e3] at h
        cases h

/-- C4: for each of the three supported methods, the first component
returned by `zne_method` is the fitted model of that method evaluated at
noise scale 0 with the fitted parameters, and the returned fit function
and parameters are those of the selected model. -/
theorem zne_extrapolates_to_zero_noise
    (fit : FitTag → List ℚ → List ℚ → Option (List ℚ)) (rexp : ℚ → ℚ)
    (method : String) (xdata ydata : List ℚ)
    (zv : ℚ) (yd popt : List ℚ) (tag : FitTag)
    (hme : method = "linear" ∨ method = "quadratic" ∨ method = "exponential")
    (h : zne_method fit rexp method xdata ydata = .ok (zv, yd, popt, tag)) :
    tag.methodName = method ∧ fit tag xdata ydata = some popt ∧
      tag.eval rexp 0 popt = some zv :=
  (zne_method_ok_inv fit rexp method xdata ydata zv yd popt tag h).2

/-- Witness for C4: a concrete linear fit extrapolating to 2 at scale 0. -/
theorem zne_extrapolates_to_zero_noise_w :
    ("linear" = "linear" ∨ "linear" = "quadratic" ∨ "linear" = "exponential") ∧
    zne_method (fun _ _ _ => some [1, 2]) id "linear" [1, 2] [3, 4] =
      .ok (2, [3, 4], [1, 2], .linearTag) ∧
    (FitTag.methodName .linearTag = "linear" ∧
      (fun (_ : FitTag) (_ _ : List ℚ) => some [(1 : ℚ), 2]) .linearTag [1, 2] [3, 4] =
        some [1, 2] ∧
      FitTag.eval id .linearTag 0 [1, 2] = some 2) := by
  have h : zne_method (fun _ _ _ => some [1, 2]) id "linear" [1, 2] [3, 4] =
      .ok (2, [3, 4], [1, 2], .linearTag) := by
    norm_num [zne_method, linear_model]
  exact ⟨Or.inl rfl, h,
    zne_extrapolates_to_zero_noise (fun _ _ _ => some [1, 2]) id "linear"
      [1, 2] [3, 4] 2 [3, 4] [1, 2] .linearTag (Or.inl rfl) h⟩

/-- C5: `zne_method` completes normally only for the three supported
method strings, and for every other method string it returns the
`ValueError` of the final else branch; the result in that case is the
same for every curve-fit oracle, i.e. no fit is performed. -/
theorem zne_method_supports_exactly_three_methods
    (fit : FitTag → List ℚ → List ℚ → Option (List ℚ)) (rexp : ℚ → ℚ)
    (method : String) (xdata ydata : List ℚ) :
    (method ≠ "linear" ∧ method ≠ "quadratic" ∧ method ≠ "exponential" →
      zne_method fit rexp method xdata ydata = .error .valueError) ∧
    (∀ out, zne_method fit rexp method xdata ydata = .ok out →
      method = "linear" ∨ method = "quadratic" ∨ method = "exponential") := by
  constructor
  · rintro ⟨h1, h2, h3⟩
    rw [zne_method, if_neg h1, if_neg h2, if_neg h3]
  · intro out h
    by_cases e1 : method = "linear"
    · exact Or.inl e1
    by_cases e2 : method = "quadratic"
    · exact Or.inr (Or.inl e2)
    by_cases e3 : method = "exponential"
    · exact Or.inr (Or.inr e3)
    rw [zne_method, if_neg e1, if_neg e2, if_neg e3] at h
    cases h

/-- Witness for C5 at the unsupported method string "cubic". -/
theorem zne_method_supports_exactly_three_methods_w :
    ("cubic" ≠ "linear" ∧ "cubic" ≠ "quadratic" ∧ "cubic" ≠ "exponential") ∧
    zne_method (fun _ _ _ => some []) id "cubic" [] [] = .error .valueError :=
  ⟨by decide,
    (zne_method_supports_exactly_three_methods (fun _ _ _ => some []) id
      "cubic" [] []).1 (by decide)⟩

/-- C7: the two modules are pure: a successful `zne_method` call hands
back its `ydata` argument unchanged, every layout in a scoring result is
one of the caller-supplied layout lists unchanged, and the scoring result
depends only on the observable behaviour of the backend-properties
object, so two calls with equal inputs return equal outputs and no
argument (including the default-mutable list parameters) is mutated. -/
theorem modules_are_stateless_and_pure :
    (∀ (fit : FitTag → List ℚ → List ℚ → Option (List ℚ)) (rexp : ℚ → ℚ)
        (method : String) (xdata ydata : List ℚ)
        (out : ℚ × List ℚ × List ℚ × FitTag),
        zne_method fit rexp method xdata ydata = .ok out → out.2.1 = ydata) ∧
    (∀ (β : Type) (inst : DecidableEq β) (props : Props β)
        (ve : List (Nat × Nat)) (layouts : List (List β)) (g : String)
        (brq : List β) (bce : List (β × β)) (scores : List (List β × ℚ))
        (l : List β) (s : ℚ),
        @lightweight_layout_error_scoring β inst props ve layouts g brq bce =
          some scores → (l, s) ∈ scores → l ∈ layouts) ∧
    (∀ (β : Type) (inst : DecidableEq β) (p q : Props β),
        (∀ g e, p.gate_error g e = q.gate_error g e) →
        (∀ x, p.readout_error x = q.readout_error x) →
        ∀ (ve : List (Nat × Nat)) (layouts : List (List β)) (g : String)
          (brq : List β) (bce : List (β × β)),
          @lightweight_layout_error_scoring β inst p ve layouts g brq bce =
          @lightweight_layout_error_scoring β inst q ve layouts g brq bce) := by
  refine ⟨?_, ?_, ?_⟩
  · intro fit rexp method xdata ydata out h
    obtain ⟨zv, yd, popt, tag⟩ := out
    exact (zne_method_ok_inv fit rexp method xdata ydata zv yd popt tag h).1
  · intro β inst props ve layouts g brq bce scores l s h hm
    exact (lles_mem h hm).1
  · intro β inst p q hg hr ve layouts g brq bce
    have hpq : p = q := by
      obtain ⟨pg, pr⟩ := p
      obtain ⟨qg, qr⟩ := q
      simp only [Props.mk.injEq]
      exact ⟨funext fun gg => funext fun ee => hg gg ee, funext fun x => hr x⟩
    rw [hpq]

/-- Witness for C7: a concrete successful linear call returns its
`ydata` argument. -/
theorem modules_are_stateless_and_pure_w :
    zne_method (fun _ _ _ => some [1, 2]) id "linear" [] [3] =
      .ok (2, [3], [1, 2], .linearTag) ∧
    ((2 : ℚ), ([3] : List ℚ), ([1, 2] : List ℚ), FitTag.linearTag).2.1 = [3] := by
  have h : zne_method (fun _ _ _ => some [1, 2]) id "linear" [] [3] =
      .ok (2, [3], [1, 2], .linearTag) := by
    norm_num [zne_method, linear_model]
  exact ⟨h, modules_are_stateless_and_pure.1 (fun _ _ _ => some [1, 2]) id
    "linear" [] [3] (2, [3], [1, 2], .linearTag) h⟩

theorem foldlM_set_length :
    ∀ (m : List (Nat × Nat)) (acc l : List (Option Nat)),
      m.foldlM (fun acc kv =>
        if kv.2 < acc.length then some (acc.set kv.2 (some kv.1)) else none)
        acc = some l →
      l.length = acc.length := by
  intro m
  induction m with
  | nil =>
    intro acc l h
    simp only [List.foldlM_nil, Option.pure_def, Option.some.injEq] at h
    subst h
    rfl
  | cons kv rest ih =>
    intro acc l h
    rw [List.foldlM_cons] at h
    by_cases hk : kv.2 < acc.length
    · rw [if_pos hk] at h
      have hstep := ih (acc.set kv.2 (some kv.1)) l h
      rw [hstep, List.length_set]
    · rw [if_neg hk] at h
      cases h

theorem buildInitialLayout_length {n : Nat} {m : List (Nat × Nat)}
    {l : List (Option Nat)} (h : buildInitialLayout n m = some l) :
    l.length = n := by
  have := foldlM_set_length m (List.replicate n none) l h
  rwa [List.length_replicate] at this

theorem mapM_mem_exists {β γ : Type} (f : β → Option γ) :
    ∀ (xs : List β) (ys : List γ), xs.mapM f = some ys →
      ∀ y ∈ ys, ∃ x, x ∈ xs ∧ f x = some y := by
  intro xs
  induction xs with
  | nil =>
    intro ys h y hy
    simp only [List.mapM_nil, Option.pure_def, Option.some.injEq] at h
    subst h
    cases hy
  | cons x rest ih =>
    intro ys h y hy
    rw [List.mapM_cons] at h
    cases hfx : f x with
    | none => rw [hfx] at h; cases h
    | some fx =>
      rw [hfx] at h
      cases hrest : rest.mapM f with
      | none => rw [hrest] at h; cases h
      | some rest2 =>
        rw [hrest] at h
        have h2 : fx :: rest2 = ys := by
          simpa using h
        subst h2
        rcases List.mem_cons.mp hy with rfl | hy2
        · exact ⟨x, List.mem_cons_self _ _, hfx⟩
        · obtain ⟨x2, hx2, hfx2⟩ := ih rest2 hrest y hy2
          exact ⟨x2, List.mem_cons_of_mem _ hx2, hfx2⟩

/-- C8: when `get_zigzag_physical_layout` returns and
`num_alpha_beta_qubits` is positive, the returned layout is the selected
full layout with its last `num_alpha_beta_qubits` entries removed, so it
has length `2 * (num_orbitals + num_ancillas)`; when
`num_alpha_beta_qubits = 0`, the slice `[:-0]` makes the returned layout
the empty list instead of the full two-chain layout. -/
theorem get_zigzag_layout_slicing (iso : Graph → Graph → Bool)
    (vf2 : Graph → Graph → List (List (Nat × Nat))) (fuel num_orbitals : Nat)
    (backendGraph : Graph) (props : Props (Option Nat)) (g : String) (sl : Bool)
    (num_ancillas : Nat) (brq : List (Option Nat))
    (bce : List (Option Nat × Option Nat)) (ret : List (Option Nat)) (nab : Nat)
    (h : get_zigzag_physical_layout iso vf2 fuel num_orbitals backendGraph props
      g sl num_ancillas brq bce = some (ret, nab)) :
    (nab = 0 → ret = []) ∧
    (0 < nab → ret.length = 2 * (num_orbitals + num_ancillas) ∧
      ∃ full : List (Option Nat),
        full.length = 2 * (num_orbitals + num_ancillas) + nab ∧
        ret = full.take (2 * (num_orbitals + num_ancillas))) := by
  unfold get_zigzag_physical_layout at h
  cases hcl : create_lucj_zigzag_layout iso fuel (num_orbitals + num_ancillas)
      backendGraph with
  | none => rw [hcl] at h; cases h
  | some gk =>
    simp only [hcl] at h
    cases hml : (vf2 backendGraph gk.1).mapM
        (buildInitialLayout (2 * (num_orbitals + num_ancillas) + gk.2)) with
    | none => rw [hml] at h; cases h
    | some layouts =>
      simp only [hml] at h
      have hlen : ∀ l ∈ layouts, l.length = 2 * (num_orbitals + num_ancillas) + gk.2 := by
        intro l hl
        obtain ⟨mp, -, hmp⟩ := mapM_mem_exists _ _ layouts hml l hl
        exact buildInitialLayout_length hmp
      have main : ∀ (full : List (Option Nat)),
          full.length = 2 * (num_orbitals + num_ancillas) + gk.2 →
          (gk.2 = 0 → pyNegSlice full gk.2 = []) ∧
          (0 < gk.2 → (pyNegSlice full gk.2).length = 2 * (num_orbitals + num_ancillas) ∧
            ∃ full2 : List (Option Nat),
              full2.length = 2 * (num_orbitals + num_ancillas) + gk.2 ∧
              pyNegSlice full gk.2 = full2.take (2 * (num_orbitals + num_ancillas))) := by
        intro full hfull
        constructor
        · intro h0
          rw [pyNegSlice, if_pos h0]
        · intro hpos
          have hslice : pyNegSlice full gk.2 = full.take (2 * (num_orbitals + num_ancillas)) := by
            rw [pyNegSlice, if_neg (by omega), hfull]
            congr 1
            omega
          refine ⟨?_, full, hfull, hslice⟩
          rw [hslice, List.length_take, hfull]
          omega
      cases sl with
      | false =>
        simp only [Bool.false_eq_true, if_false] at h
        cases layouts with
        | nil => cases h
        | cons first rest =>
          simp only [List.head?] at h
          have h1 : pyNegSlice first gk.2 = ret := congrArg Prod.fst (Option.some.inj h)
          have h2 : gk.2 = nab := congrArg Prod.snd (Option.some.inj h)
          subst h1
          subst h2
          exact main first (hlen first (List.mem_cons_self _ _))
      | true =>
        simp only [if_true] at h
        cases hsc : lightweight_layout_error_scoring props gk.1.edges layouts g
            brq bce with
        | none => rw [hsc] at h; cases h
        | some scores =>
          simp only [hsc] at h
          cases scores with
          | nil => cases h
          | cons first rest =>
            simp only [List.head?] at h
            have h1 : pyNegSlice first.1 gk.2 = ret := congrArg Prod.fst (Option.some.inj h)
            have h2 : gk.2 = nab := congrArg Prod.snd (Option.some.inj h)
            have hmem : (first.1, first.2) ∈ first :: rest := by
              rw [Prod.mk.eta]
              exact List.mem_cons_self _ _
            subst h1
            subst h2
            exact main first.1 (hlen first.1 (lles_mem hsc hmem).1)

/-- Witness for C8: a concrete unscored run with one connecting qubit. -/
theorem get_zigzag_layout_slicing_w :
    get_zigzag_physical_layout (fun _ _ => true)
        (fun _ _ => [[(0, 0), (1, 1), (2, 2)]]) 1 1 ⟨3, [(0, 2), (2, 1)]⟩
        (⟨fun _ _ => some 0, fun _ => 0⟩ : Props (Option Nat)) "cz" false 0 [] [] =
      some ([some 0, some 1], 1) ∧
    ((1 = 0 → ([some 0, some 1] : List (Option Nat)) = []) ∧
    (0 < 1 → ([some 0, some 1] : List (Option Nat)).length = 2 * (1 + 0) ∧
      ∃ full : List (Option Nat), full.length = 2 * (1 + 0) + 1 ∧
        ([some 0, some 1] : List (Option Nat)) = full.take (2 * (1 + 0)))) :=
  ⟨rfl, get_zigzag_layout_slicing (fun _ _ => true)
    (fun _ _ => [[(0, 0), (1, 1), (2, 2)]]) 1 1 ⟨3, [(0, 2), (2, 1)]⟩
    (⟨fun _ _ => some 0, fun _ => 0⟩ : Props (Option Nat)) "cz" false 0 [] []
    [some 0, some 1] 1 rfl⟩

end QGSS
